import Mathlib

/-!
Verification of the tjper/teleport jobworker against its specification.

Shallow embedding of the Go source:
  - internal/jobworker/job/job.go, service.go  (job state machine, registry)
  - internal/jobworker/grpc/server.go (second, authenticated variant),
    user.go, convert.go                         (RPC facade)
  - internal/jobworker/cgroup/controller.go (second variant, using
    internal/device)                            (cgroup value formats)
  - internal/encrypt/encrypt.go, third document (package reexec)
  - internal/validator (validator package)
  - proto/jobworker.v1 (wire enums and messages)

Machine integers are modelled as Nat/Int with explicit two's-complement
reinterpretation where the Go code converts between widths.  Fallible Go
code is modelled with Option/Except; a Go runtime fault (nil-pointer
dereference, index out of range) is modelled as the `none` result of an
Option-valued embedding.
-/

namespace Teleport

/-- Internal job status, job.go: `type Status string` with the four
constants Pending, Running, Stopped, Exited. -/
inductive JobStatus
  | pending
  | running
  | stopped
  | exited
deriving DecidableEq, Repr

/-- job.go `noExit`: default exit code; the process has not exited or was
terminated by a signal. -/
def noExit : Int := -1

/-- Wire enum jobworker.v1.Status (proto): UNSPECIFIED=0, PENDING=1,
RUNNING=2, STOPPED=3, EXITED=4. -/
inductive PbStatus
  | unspecified
  | pending
  | running
  | stopped
  | exited
deriving DecidableEq, Repr

/-- Numeric wire value of the proto enum. -/
def PbStatus.toWire : PbStatus → Nat
  | .unspecified => 0
  | .pending => 1
  | .running => 2
  | .stopped => 3
  | .exited => 4

/-- convert.go `toStatus`: switch with cases for Running, Stopped and
Exited only; every other status (Pending included) falls through to the
default branch, STATUS_UNSPECIFIED. -/
def toStatus : JobStatus → PbStatus
  | .running => .running
  | .stopped => .stopped
  | .exited => .exited
  | _ => .unspecified

/-- Go `uint32(i)` conversion of an `int`: two's-complement truncation to
32 bits. -/
def toUint32 (i : Int) : Nat := (i % (2 ^ 32 : Nat)).toNat

/-- Reinterpretation of a 32-bit unsigned value as the proto `int32`
field value. -/
def toInt32 (n : Nat) : Int :=
  if n % 2 ^ 32 < 2 ^ 31 then ((n % 2 ^ 32 : Nat) : Int)
  else ((n % 2 ^ 32 : Nat) : Int) - 2 ^ 32

/-- Wire message jobworker.v1.StatusDetail: a status enum and an `int32`
exit code. -/
structure StatusDetail where
  status : PbStatus
  exitCode : Int
deriving DecidableEq, Repr

/-- server.go builds the wire StatusDetail as
`{Status: toStatus(j.Status()), ExitCode: uint32(j.ExitCode())}`; the
proto declares exit_code as int32 (the repository's tests assign -1 to
it), so the stored wire value is the int32 reinterpretation of that
32-bit pattern. -/
def statusDetailOf (st : JobStatus) (exitCode : Int) : StatusDetail :=
  { status := toStatus st, exitCode := toInt32 (toUint32 exitCode) }

/-- C3: the wire projection maps internal Pending to STATUS_UNSPECIFIED
(0), not STATUS_PENDING (1): convert.go's switch has no Pending case, so
a fresh job (and every successful Start response) reports status 0 on
the wire, contradicting the spec and the repository's own end-to-end
tests, which expect STATUS_PENDING with exit code -1.  The other three
states and the exit-code projection do follow the claim. -/
theorem toStatus_pending_unspecified :
    (statusDetailOf JobStatus.pending noExit).status = PbStatus.unspecified
    ∧ PbStatus.unspecified ≠ PbStatus.pending
    ∧ PbStatus.pending.toWire = 1
    ∧ PbStatus.unspecified.toWire = 0
    ∧ (statusDetailOf JobStatus.pending noExit).exitCode = -1
    ∧ (statusDetailOf JobStatus.running noExit).exitCode = -1
    ∧ (statusDetailOf JobStatus.stopped noExit).exitCode = -1
    ∧ (statusDetailOf JobStatus.exited 7).exitCode = 7
    ∧ toStatus JobStatus.running = PbStatus.running
    ∧ toStatus JobStatus.stopped = PbStatus.stopped
    ∧ toStatus JobStatus.exited = PbStatus.exited := by
  refine ⟨rfl, by decide, rfl, rfl, ?_, ?_, ?_, ?_, rfl, rfl, rfl⟩ <;> decide

/-- Client certificate as far as user.go consumes it: only the subject
Common Name is read. -/
structure Cert where
  commonName : String
deriving DecidableEq, Repr

/-- The slice of `tls.ConnectionState` read by user.go: the verified
certificate chains. -/
structure TLSState where
  verifiedChains : List (List Cert)
deriving DecidableEq, Repr

/-- A gRPC peer as user.go consumes it; `tlsInfo = none` models
`peer.AuthInfo` not being `credentials.TLSInfo`. -/
structure GrpcPeer where
  tlsInfo : Option TLSState
deriving DecidableEq, Repr

/-- The Go condition
`len(tlsInfo.State.VerifiedChains) > 0 && len(tlsInfo.State.VerifiedChains[0]) > 0`;
`&&` short-circuits, so the inner indexing only happens when the outer
length test passed. -/
def chainNonempty (chains : List (List Cert)) : Bool :=
  match chains with
  | [] => false
  | c :: _ => decide (0 < c.length)

/-- user.go `userFromContext`, statement by statement.  `peer = none`
models `peer.FromContext` reporting no peer.  The result `none` models a
Go runtime fault: after the guard, the source unconditionally evaluates
`tlsInfo.State.VerifiedChains[0][0].Subject.CommonName`, and either
index panics when the respective list is empty. -/
def userFromContext (peer : Option GrpcPeer) : Option (String × Bool) :=
  match peer with
  | none => some ("", false)
  | some p =>
    match p.tlsInfo with
    | none => some ("", false)
    | some tls =>
      if chainNonempty tls.verifiedChains then
        some ("", false)
      else
        match tls.verifiedChains with
        | [] => none
        | chain :: _ =>
          match chain with
          | [] => none
          | cert :: _ => some (cert.commonName, true)

/-- C2: user.go's chain guard is inverted.  A peer presenting a verified
chain whose leaf certificate carries Common Name "alice" is rejected
(`ok = false`, so every RPC would fail Unauthenticated), while a peer
with an empty VerifiedChains slice reaches
`tlsInfo.State.VerifiedChains[0][0]` and faults with an index
out-of-range panic (modelled as `none`); a verified chain with no
certificates faults on the inner index the same way.  The claim states
the exact opposite on every point. -/
theorem userFromContext_inverted_chain_check :
    userFromContext (some ⟨some ⟨[[⟨"alice"⟩]]⟩⟩) = some ("", false)
    ∧ userFromContext (some ⟨some ⟨[]⟩⟩) = none
    ∧ userFromContext (some ⟨some ⟨[[]]⟩⟩) = none
    ∧ userFromContext none = some ("", false)
    ∧ userFromContext (some ⟨none⟩) = some ("", false) := by
  refine ⟨rfl, rfl, rfl, rfl, rfl⟩

/-- Error wrapped by the validator package: `NewErrInvalidInput` formats
`"%w; msg: %s"` over `ErrInvalidInput = errors.New("invalid input")`. -/
def newErrInvalidInput (msg : String) : String :=
  "invalid input" ++ "; msg: " ++ msg

/-- validator.Validator: records the first failing condition. -/
structure Validator where
  err : Option String
deriving DecidableEq, Repr

/-- validator.New. -/
def Validator.new : Validator := { err := none }

/-- Validator.Assert: skips the check once an error is recorded;
otherwise records `NewErrInvalidInput msg` when the condition is false.
In Go the `condition` argument is evaluated eagerly at the call site
even when the validator already holds an error. -/
def Validator.assert (v : Validator) (condition : Bool) (msg : String) : Validator :=
  match v.err with
  | some _ => v
  | none => if condition then v else { err := some (newErrInvalidInput msg) }

/-- Validator.AssertFunc: same recording logic, but the condition is a
closure whose body only runs inside the method, after the short-circuit
on an already-recorded error. -/
def Validator.assertFunc (v : Validator) (fn : Unit → Bool) (msg : String) : Validator :=
  match v.err with
  | some _ => v
  | none => if fn () then v else { err := some (newErrInvalidInput msg) }

/-- Wire message jobworker.v1.Command. -/
structure PbCommand where
  name : String
  args : List String
deriving DecidableEq, Repr

/-- Wire message jobworker.v1.Limits; 0 means "do not apply". -/
structure PbLimits where
  memory : Nat
  cpus : ℚ
  diskWriteBps : Nat
  diskReadBps : Nat
deriving DecidableEq, Repr

/-- Wire message jobworker.v1.StartRequest; the message fields are
pointers in Go, so each may be nil. -/
structure StartRequest where
  command : Option PbCommand
  limits : Option PbLimits
deriving DecidableEq, Repr

/-- Outcome of the Start handler's validation prologue.  `fault` models
a Go nil-pointer-dereference panic. -/
inductive StartValidation
  | fault
  | invalid (msg : String)
  | valid
deriving DecidableEq, Repr

/-- server.go Start, validation prologue:
`valid.AssertFunc(func() bool { return req.Command != nil }, "command empty")`
then `valid.Assert(req.Command.Name != "", "command name empty")` then
`valid.AssertFunc(func() bool { return req.Limits != nil }, "limits empty")`.
The second call's argument `req.Command.Name != ""` is evaluated before
Assert runs, so when `req.Command` is nil the handler dereferences a nil
pointer and panics instead of reaching `valid.Err()`. -/
def startValidate (req : StartRequest) : StartValidation :=
  let v1 := Validator.new.assertFunc (fun _ => req.command.isSome) "command empty"
  match req.command with
  | none => .fault
  | some cmd =>
    let v2 := v1.assert (cmd.name ≠ "") "command name empty"
    let v3 := v2.assertFunc (fun _ => req.limits.isSome) "limits empty"
    match v3.err with
    | some msg => .invalid msg
    | none => .valid

/-- C9: Start's input validation is not total.  A request with a nil
command panics with a nil-pointer dereference while building the
argument of the second assertion (the validator's internal
short-circuit never gets a chance to run), instead of returning
InvalidArgument as the claim states.  The empty-name and nil-limits
cases do return InvalidArgument, and a fully-populated request
validates. -/
theorem startValidate_nil_command_faults :
    startValidate { command := none, limits := some ⟨0, 0, 0, 0⟩ } = StartValidation.fault
    ∧ startValidate { command := some ⟨"", []⟩, limits := some ⟨0, 0, 0, 0⟩ }
        = StartValidation.invalid (newErrInvalidInput "command name empty")
    ∧ startValidate { command := some ⟨"ls", []⟩, limits := none }
        = StartValidation.invalid (newErrInvalidInput "limits empty")
    ∧ startValidate { command := some ⟨"ls", []⟩, limits := some ⟨0, 0, 0, 0⟩ }
        = StartValidation.valid := by
  refine ⟨rfl, ?_, ?_, rfl⟩ <;> decide

/-- The mutable per-job record tracked by job.go: status and exit code,
both guarded by the job's mutex. -/
structure JobState where
  status : JobStatus
  exitCode : Int
deriving DecidableEq, Repr

/-- job.New constructs the job with `status: Pending, exitCode: noExit`. -/
def initJob : JobState := { status := .pending, exitCode := noExit }

/-- job.go `wait`, classification of `j.exec.ProcessState.ExitCode()`:
code `noExit` (-1) means the child was terminated by a signal, so only
the status is set (to Stopped) and the exit code keeps its sentinel;
any other code sets status Exited and records the code. -/
def waitTransition (s : JobState) (code : Int) : JobState :=
  if code = noExit then { s with status := .stopped }
  else { status := .exited, exitCode := code }

/-- Events that mutate a job's state, with the guards service.go's
calling protocol enforces: `j.start()` (which sets Running) is invoked
exactly once by Service.StartJob, immediately after the freshly
constructed (Pending) job is stored; the waiter goroutine running
`j.wait()` is spawned only after `start` succeeded and runs once, so
the wait classification fires from Running.  `os.ProcessState.ExitCode`
returns -1 for a signalled child and the non-negative exit status
otherwise, hence the `-1 ≤ code` bound. -/
inductive JobStep : JobState → JobState → Prop
  | start (s : JobState) :
      s.status = .pending → JobStep s { s with status := .running }
  | wait (s : JobState) (code : Int) :
      s.status = .running → -1 ≤ code → JobStep s (waitTransition s code)

/-- A job state reachable from the constructor state by the service's
event protocol. -/
def JobReachable (s : JobState) : Prop :=
  Relation.ReflTransGen JobStep initJob s

/-- Rank of a status in the transition graph
Pending → Running → (Stopped | Exited). -/
def statusRank : JobStatus → Nat
  | .pending => 0
  | .running => 1
  | .stopped => 2
  | .exited => 2

/-- A status is terminal when no event fires from it. -/
def terminalStatus (st : JobStatus) : Prop :=
  st = .stopped ∨ st = .exited

theorem jobStep_edges {s t : JobState} (h : JobStep s t) :
    (s.status = .pending ∧ t.status = .running)
    ∨ (s.status = .running ∧ (t.status = .stopped ∨ t.status = .exited)) := by
  cases h with
  | start hs => exact Or.inl ⟨hs, rfl⟩
  | wait code hs _ =>
    refine Or.inr ⟨hs, ?_⟩
    unfold waitTransition
    by_cases hc : code = noExit
    · simp [hc]
    · simp [hc]

/-- Invariant carried by every reachable job state. -/
def jobInv (s : JobState) : Prop :=
  (s.status = .exited → 0 ≤ s.exitCode)
  ∧ (s.status ≠ .exited → s.exitCode = noExit)

theorem jobInv_init : jobInv initJob := by
  constructor
  · intro h; simp [initJob] at h
  · intro _; rfl

theorem jobInv_step {s t : JobState} (hs : jobInv s) (h : JobStep s t) : jobInv t := by
  cases h with
  | start hst =>
    refine ⟨?_, ?_⟩
    · intro hx; simp at hx
    · intro _; exact hs.2 (by rw [hst]; intro hx; cases hx)
  | wait code hst hge =>
    unfold waitTransition
    by_cases hc : code = noExit
    · simp only [hc, if_pos rfl]
      refine ⟨?_, ?_⟩
      · intro hx; simp at hx
      · intro _; exact hs.2 (by rw [hst]; intro hx; cases hx)
    · simp only [if_neg hc]
      refine ⟨?_, ?_⟩
      · intro _
        show (0 : Int) ≤ code
        unfold noExit at hc
        omega
      · intro hx; simp at hx

theorem jobInv_reachable {s : JobState} (h : JobReachable s) : jobInv s := by
  induction h with
  | refl => exact jobInv_init
  | tail _ hstep ih => exact jobInv_step ih hstep

/-- C8: the job state machine is monotone along
Pending → Running → (Stopped | Exited): every step either leaves
Pending for Running or leaves Running for a terminal state (so there
are no back-edges and no step out of Stopped or Exited), and every
reachable state recording status Exited carries a non-negative exit
code while every other reachable state still carries the -1 sentinel. -/
theorem job_state_machine_invariant (s t : JobState)
    (hreach : JobReachable s) (hstep : JobStep s t) :
    ((s.status = .pending ∧ t.status = .running)
      ∨ (s.status = .running ∧ (t.status = .stopped ∨ t.status = .exited)))
    ∧ statusRank s.status < statusRank t.status
    ∧ ¬ terminalStatus s.status
    ∧ (s.status = .exited → 0 ≤ s.exitCode)
    ∧ (s.status ≠ .exited → s.exitCode = noExit)
    ∧ (t.status = .exited → 0 ≤ t.exitCode)
    ∧ (t.status ≠ .exited → t.exitCode = noExit) := by
  have hedge := jobStep_edges hstep
  have hinvs := jobInv_reachable hreach
  have hinvt := jobInv_step hinvs hstep
  refine ⟨hedge, ?_, ?_, hinvs.1, hinvs.2, hinvt.1, hinvt.2⟩
  · rcases hedge with ⟨h1, h2⟩ | ⟨h1, h2⟩
    · rw [h1, h2]; decide
    · rcases h2 with h2 | h2 <;> rw [h1, h2] <;> decide
  · rcases hedge with ⟨h1, _⟩ | ⟨h1, _⟩ <;> rw [h1] <;>
      intro hterm <;> rcases hterm with h | h <;> simp at h

/-- Witness for C8 at a concrete reachable state: the constructor state
is reachable and can take the start step to Running. -/
theorem job_state_machine_invariant_witness :
    JobReachable initJob
    ∧ JobStep initJob { initJob with status := .running }
    ∧ (((initJob.status = .pending
          ∧ ({ initJob with status := .running } : JobState).status = .running)
        ∨ (initJob.status = .running
          ∧ (({ initJob with status := .running } : JobState).status = .stopped
            ∨ ({ initJob with status := .running } : JobState).status = .exited)))
      ∧ statusRank initJob.status
          < statusRank ({ initJob with status := .running } : JobState).status
      ∧ ¬ terminalStatus initJob.status
      ∧ (initJob.status = .exited → 0 ≤ initJob.exitCode)
      ∧ (initJob.status ≠ .exited → initJob.exitCode = noExit)
      ∧ (({ initJob with status := .running } : JobState).status = .exited
          → 0 ≤ ({ initJob with status := .running } : JobState).exitCode)
      ∧ (({ initJob with status := .running } : JobState).status ≠ .exited
          → ({ initJob with status := .running } : JobState).exitCode = noExit)) := by
  have hreach : JobReachable initJob := Relation.ReflTransGen.refl
  have hstep : JobStep initJob { initJob with status := .running } :=
    JobStep.start initJob rfl
  exact ⟨hreach, hstep, job_state_machine_invariant _ _ hreach hstep⟩

/-- Hexadecimal digit as accepted by google/uuid's byte tables. -/
def isHexDigit (c : Char) : Bool :=
  c.isDigit || (('a' ≤ c && c ≤ 'f') || ('A' ≤ c && c ≤ 'F'))

/-- Character admissible at position `i` of a canonical UUID string:
hyphens at 8, 13, 18, 23 and hex digits elsewhere. -/
def uuidCharOk (i : Nat) (c : Char) : Bool :=
  if i = 8 || i = 13 || i = 18 || i = 23 then c = '-' else isHexDigit c

/-- Success of `uuid.Parse` on the canonical 36-character form
xxxxxxxx-xxxx-xxxx-xxxx-xxxxxxxxxxxx.  (The library also accepts
urn-prefixed, braced and 32-hex forms; none of those arise in the
claims, and the empty string is rejected by every form.) -/
def isUUID (s : String) : Bool :=
  let cs := s.toList
  cs.length == 36 && cs.enum.all (fun p => uuidCharOk p.1 p.2)

/-- A registered job as the gRPC layer sees it: UUID (string form),
owner identity, and the tracked state. -/
structure JobRec where
  id : String
  owner : String
  state : JobState
deriving DecidableEq, Repr

/-- The Service registry (service.go `jobs *sync.Map`): job ID to job.
Insert-only; modelled as an association list with the newest entry in
front. -/
abbrev Registry := List JobRec

/-- sync.Map.Load on the registry. -/
def lookupJob (reg : Registry) (id : String) : Option JobRec :=
  List.find? (fun j => j.id = id) reg

/-- service.go `loadJob` (used by FetchJob and StopJob): Load, else
ErrJobNotFound (the stored value is always a *Job, so the type check
never fails). -/
def loadJob (reg : Registry) (id : String) : Except Unit JobRec :=
  match lookupJob reg id with
  | none => .error ()
  | some j => .ok j

/-- gRPC status codes appearing in server.go. -/
inductive Code
  | ok
  | invalidArgument
  | notFound
  | failedPrecondition
  | internal
  | unauthenticated
  | permissionDenied
deriving DecidableEq, Repr

/-- server.go `fetchJob` (authenticated variant): parse the ID as a
UUID (InvalidArgument on failure), load it from the service (NotFound
when ErrJobNotFound), then compare the job's Owner with the caller:
a mismatch returns NotFound — deliberately not PermissionDenied — so
that a non-owner cannot learn that the ID exists. -/
def fetchJob (reg : Registry) (user : String) (jobId : String) : Except Code JobRec :=
  if ¬ isUUID jobId then .error .invalidArgument
  else
    match loadJob reg jobId with
    | .error _ => .error .notFound
    | .ok j => if j.owner ≠ user then .error .notFound else .ok j

/-- server.go `Stop` (authenticated variant), step by step: identity
extraction (Unauthenticated when absent), then the guard
`if req.JobId != "" { return InvalidArgument("empty job ID") }` exactly
as written in the source, then fetchJob, then the Running
precondition, then Service.StopJob (which cannot fail after fetchJob
succeeded: loadJob finds the job and the non-Running case was already
rejected), returning the empty StopResponse. -/
def stopHandler (user : Option String) (reg : Registry) (jobId : String) : Code :=
  match user with
  | none => .unauthenticated
  | some u =>
    if jobId ≠ "" then .invalidArgument
    else
      match fetchJob reg u jobId with
      | .error c => c
      | .ok j => if j.state.status ≠ .running then .failedPrecondition else .ok

/-- server.go `Status` (authenticated variant): identity extraction,
the same inverted `req.JobId != ""` guard, fetchJob, then the wire
projection of the job's state. -/
def statusHandler (user : Option String) (reg : Registry) (jobId : String) :
    Except Code StatusDetail :=
  match user with
  | none => .error .unauthenticated
  | some u =>
    if jobId ≠ "" then .error .invalidArgument
    else
      match fetchJob reg u jobId with
      | .error c => .error c
      | .ok j => .ok (statusDetailOf j.state.status j.state.exitCode)

/-- A fixed canonical UUID used as a concrete job ID. -/
def sampleId : String := "123e4567-e89b-12d3-a456-426614174000"

/-- A running job owned by alice under the sample ID. -/
def aliceRunningJob : JobRec :=
  { id := sampleId, owner := "alice", state := { status := .running, exitCode := noExit } }

/-- C1: Stop's job-ID guard is inverted (`req.JobId != ""` returns
InvalidArgument), so every request carrying a job ID — including a
well-formed UUID of the caller's own Running job — fails with
InvalidArgument instead of stopping the job, while the empty ID slips
past the guard and only fails because `uuid.Parse("")` errors.  The
NotFound and FailedPrecondition arms of the claim are unreachable for
any non-empty ID. -/
theorem stop_inverted_guard_rejects_valid_id :
    stopHandler (some "alice") [aliceRunningJob] sampleId = Code.invalidArgument
    ∧ stopHandler (some "alice") [aliceRunningJob] "" = Code.invalidArgument
    ∧ isUUID sampleId = true
    ∧ lookupJob [aliceRunningJob] sampleId = some aliceRunningJob
    ∧ aliceRunningJob.state.status = JobStatus.running
    ∧ stopHandler none [aliceRunningJob] sampleId = Code.unauthenticated := by
  refine ⟨rfl, ?_, by decide, rfl, rfl, rfl⟩
  decide

/-- C4: with the inverted job-ID guard, a Status (or Stop/Output)
request presenting the well-formed UUID of a job owned by someone else
fails with InvalidArgument — the owner check is never reached — where
the claim requires NotFound.  The underlying `fetchJob` does implement
the claim's intent: on an owner mismatch it returns NotFound, the same
code an unknown ID produces, and never PermissionDenied. -/
theorem owner_mismatch_guard_shadows_notFound :
    statusHandler (some "mallory") [aliceRunningJob] sampleId
        = Except.error Code.invalidArgument
    ∧ stopHandler (some "mallory") [aliceRunningJob] sampleId = Code.invalidArgument
    ∧ aliceRunningJob.owner ≠ "mallory"
    ∧ fetchJob [aliceRunningJob] "mallory" sampleId = Except.error Code.notFound
    ∧ fetchJob [] "mallory" sampleId = Except.error Code.notFound
    ∧ fetchJob [aliceRunningJob] "alice" sampleId = Except.ok aliceRunningJob := by
  exact ⟨rfl, by decide, by decide, by rfl, by rfl, by rfl⟩

/-- Termination of the target command as reported by the kernel wait
status (syscall.WaitStatus): either a normal exit with a non-negative
code, or death by signal. -/
inductive WaitStatus
  | exited (code : Nat)
  | signaled
deriving DecidableEq, Repr

/-- syscall.WaitStatus.ExitStatus: the exit code for a normally exited
process, and the -1 sentinel when the process did not exit normally
(killed by a signal). -/
def WaitStatus.exitStatus : WaitStatus → Int
  | .exited c => (c : Int)
  | .signaled => -1

/-- The error `cmd.Wait()` hands to reexec's exitCode: nil on a clean
zero exit, an *exec.ExitError carrying the wait status for a non-zero
exit or a signal death, or some other failure. -/
inductive WaitErr
  | exitErr (w : WaitStatus)
  | exitErrNoWaitStatus
  | otherErr
deriving DecidableEq, Repr

/-- reexec `CommandSuccess = 0`. -/
def commandSuccess : Int := 0

/-- reexec `CommandFailure = 100`: per the source's own doc comment, it
"indicates the reexec execution of a command failed before being
executed; in the setup phase". -/
def commandFailure : Int := 100

/-- reexec `exitCode` (encrypt.go, reexec document): nil error means
success (0); an *exec.ExitError whose Sys() is a syscall.WaitStatus
yields `status.ExitStatus()`; anything else yields CommandFailure. -/
def exitCode (err : Option WaitErr) : Int :=
  match err with
  | none => commandSuccess
  | some (.exitErr w) => w.exitStatus
  | some .exitErrNoWaitStatus => commandFailure
  | some .otherErr => commandFailure

/-- The error value `cmd.Wait()` produces for a given target wait
status: nil exactly when the target exited 0, and an ExitError wrapping
the wait status otherwise. -/
def waitErrOf (w : WaitStatus) : Option WaitErr :=
  if w = .exited 0 then none else some (.exitErr w)

/-- The value reexec.Exec returns for a target that ran to termination
with wait status `w`; cli.runReexec passes it through unchanged as the
child's exit code. -/
def reexecExitCode (w : WaitStatus) : Int :=
  exitCode (waitErrOf w)

/-- C6, counterexample: a target killed by a signal makes the re-exec
child exit with syscall.WaitStatus.ExitStatus's -1 sentinel (surfacing
as process exit status 255), not with 100 as the claim states; 100 is
reserved by the source for setup failures. -/
theorem exitCode_signal_not_100 :
    reexecExitCode WaitStatus.signaled = -1
    ∧ reexecExitCode WaitStatus.signaled ≠ commandFailure := by
  exact ⟨rfl, by decide⟩

/-- C6, amended: when the target terminates normally with exit code c
the child's exit code is c, and when the target is killed by a signal
the child's exit code is the wait-status sentinel -1 (not 100; 100 is
returned only for setup failures, modelled by the non-ExitError and
non-WaitStatus error shapes). -/
theorem exitCode_amended :
    (∀ c : Nat, reexecExitCode (WaitStatus.exited c) = (c : Int))
    ∧ reexecExitCode WaitStatus.signaled = -1
    ∧ exitCode (some WaitErr.otherErr) = commandFailure
    ∧ exitCode (some WaitErr.exitErrNoWaitStatus) = commandFailure := by
  refine ⟨?_, rfl, rfl, rfl⟩
  intro c
  unfold reexecExitCode waitErrOf
  by_cases hc : WaitStatus.exited c = WaitStatus.exited 0
  · have : c = 0 := by cases hc; rfl
    subst this
    simp [exitCode, commandSuccess]
  · simp only [if_neg hc]
    rfl

/-- controller.go `period = 100000` in cpuController.apply. -/
def cpuPeriod : Nat := 100000

/-- Go `int(x)` conversion of the limit: truncation toward zero,
`Int.tdiv` on the rational's numerator and denominator.  The Go source
computes `c.cpus * period` in float32; this rational model agrees with
it exactly whenever `cpus` and the product are float32-representable,
as they are at every input used below (dyadic rationals with small
numerators). -/
def truncQ (q : ℚ) : Int := Int.tdiv q.num (q.den : Int)

/-- controller.go cpuController.apply (device-based variant):
`limit := c.cpus * period; value := fmt.Sprintf("%d %d", int(limit), period)`,
the string written to the cgroup's cpu.max interface file. -/
def cpuMaxValue (cpus : ℚ) : String :=
  toString (truncQ (cpus * (cpuPeriod : ℚ))) ++ " " ++ toString cpuPeriod

/-- Modelled from the spec's words for comparison: `quota =
round(cpus * period)`, reading "round" as rounding to the nearest
integer (half up).  At the counterexample input the value is not a tie,
so every tie-breaking convention for "round" gives the same result. -/
def specRoundHalfUp (q : ℚ) : Int := ⌊q + 1 / 2⌋

theorem truncQ_eq_floor (q : ℚ) (h : 0 ≤ q) : truncQ q = ⌊q⌋ := by
  unfold truncQ
  rw [Rat.floor_def]
  exact Int.tdiv_eq_ediv (Rat.num_nonneg.mpr h) (Int.ofNat_nonneg _)

/-- C7, counterexample: the quota is truncated, not rounded.  At
cpus = 3/128 (exactly representable in float32, product 2343.75 also
exact) the code writes "2343 100000" while round(cpus * 100000) = 2344,
so the claimed string "2344 100000" differs from what is written. -/
theorem cpuMax_round_counterexample :
    cpuMaxValue (3 / 128 : ℚ) = "2343 100000"
    ∧ specRoundHalfUp ((3 / 128 : ℚ) * (cpuPeriod : ℚ)) = 2344
    ∧ cpuMaxValue (3 / 128 : ℚ)
        ≠ toString (specRoundHalfUp ((3 / 128 : ℚ) * (cpuPeriod : ℚ)))
          ++ " " ++ toString cpuPeriod := by
  have h1 : truncQ ((3 / 128 : ℚ) * (cpuPeriod : ℚ)) = 2343 := by
    rw [truncQ_eq_floor _ (by norm_num [cpuPeriod])]
    norm_num [cpuPeriod]
  have h2 : specRoundHalfUp ((3 / 128 : ℚ) * (cpuPeriod : ℚ)) = 2344 := by
    unfold specRoundHalfUp
    norm_num [cpuPeriod]
  refine ⟨?_, h2, ?_⟩
  · unfold cpuMaxValue
    rw [h1]
    decide
  · unfold cpuMaxValue
    rw [h1, h2]
    decide

/-- C7, amended: the string written to cpu.max is
"<quota> <period>" with period = 100000 and quota the decimal integer
obtained by truncating cpus * 100000 toward zero (Go's int conversion),
which for non-negative cpus is the floor of the product; cpus = 1.5
still yields exactly "150000 100000" because its product is an
integer. -/
theorem cpuMax_trunc_amended (cpus : ℚ) (h : 0 ≤ cpus) :
    cpuMaxValue cpus = toString ⌊cpus * (cpuPeriod : ℚ)⌋ ++ " " ++ toString cpuPeriod
    ∧ cpuMaxValue (3 / 2 : ℚ) = "150000 100000" := by
  constructor
  · unfold cpuMaxValue
    rw [truncQ_eq_floor _ (mul_nonneg h (by norm_num))]
  · have h1 : truncQ ((3 / 2 : ℚ) * (cpuPeriod : ℚ)) = 150000 := by
      rw [truncQ_eq_floor _ (by norm_num [cpuPeriod])]
      norm_num [cpuPeriod]
    unfold cpuMaxValue
    rw [h1]
    decide

/-- Witness for C7's amended theorem at cpus = 3/2. -/
theorem cpuMax_trunc_amended_witness :
    (0 : ℚ) ≤ 3 / 2
    ∧ (cpuMaxValue (3 / 2 : ℚ)
        = toString ⌊(3 / 2 : ℚ) * (cpuPeriod : ℚ)⌋ ++ " " ++ toString cpuPeriod
      ∧ cpuMaxValue (3 / 2 : ℚ) = "150000 100000") :=
  ⟨by norm_num, cpuMax_trunc_amended (3 / 2 : ℚ) (by norm_num)⟩

/-- The side-effecting calls Service.StartJob makes, in program order
(service.go). -/
inductive StartAction
  | storeJob
  | createCgroup
  | startChild
  | spawnWaiter
  | placeInCgroup
  | signalContinue
deriving DecidableEq, Repr

/-- Which of StartJob's fallible calls fails in a given run (the
environment's choice); `ok` is the run where all of them succeed. -/
inductive StartOutcome
  | ok
  | cgroupCreateErr
  | childStartErr
  | placeErr
  | continueErr
deriving DecidableEq, Repr

/-- Errors Service.StartJob surfaces. -/
inductive StartErr
  | serviceClosing
  | jobAlreadyStarted
  | cgroupErr
  | childStartErr
  | placeErr
  | continueErr
deriving DecidableEq, Repr

/-- Result of one StartJob run: the registry afterwards, the ordered
trace of side-effecting calls made, and the returned error (none =
success). -/
structure StartJobRun where
  reg : Registry
  trace : List StartAction
  result : Option StartErr
deriving Repr

/-- service.go Service.StartJob, in source order: reject when not
healthy (ErrServiceClosing); reject when the ID is already present
(ErrJobAlreadyStarted); `s.jobs.Store(job.ID, &job)`; CreateCgroup;
job.start(); spawn the waiter goroutine; PlaceInCgroup(pid);
signalContinue.  No error path deletes the stored registry entry (the
registry is insert-only; StopJob/Close only cancel jobs). -/
def startJob (healthy : Bool) (reg : Registry) (j : JobRec) (outcome : StartOutcome) :
    StartJobRun :=
  if healthy = false then ⟨reg, [], some .serviceClosing⟩
  else if (lookupJob reg j.id).isSome then ⟨reg, [], some .jobAlreadyStarted⟩
  else
    let reg2 : Registry := j :: reg
    match outcome with
    | .cgroupCreateErr =>
        ⟨reg2, [.storeJob, .createCgroup], some .cgroupErr⟩
    | .childStartErr =>
        ⟨reg2, [.storeJob, .createCgroup, .startChild], some .childStartErr⟩
    | .placeErr =>
        ⟨reg2, [.storeJob, .createCgroup, .startChild, .spawnWaiter, .placeInCgroup],
          some .placeErr⟩
    | .continueErr =>
        ⟨reg2,
          [.storeJob, .createCgroup, .startChild, .spawnWaiter, .placeInCgroup,
            .signalContinue],
          some .continueErr⟩
    | .ok =>
        ⟨reg2,
          [.storeJob, .createCgroup, .startChild, .spawnWaiter, .placeInCgroup,
            .signalContinue],
          none⟩

/-- C10: on a healthy service with a fresh job ID, StartJob stores the
job in the registry as its first side effect — before the cgroup is
created — and no failure outcome (cgroup creation, child start,
placement, continue signal) removes the entry, so after StartJob
returns, whatever the outcome, loadJob/FetchJob finds the job and
Status/Output can be served for it. -/
theorem startJob_registers_before_cgroup (healthy : Bool) (reg : Registry)
    (j : JobRec) (outcome : StartOutcome)
    (hh : healthy = true) (hfresh : lookupJob reg j.id = none) :
    lookupJob (startJob healthy reg j outcome).reg j.id = some j
    ∧ loadJob (startJob healthy reg j outcome).reg j.id = Except.ok j
    ∧ (startJob healthy reg j outcome).trace.take 2
        = [StartAction.storeJob, StartAction.createCgroup] := by
  subst hh
  have hhead : lookupJob (j :: reg) j.id = some j := by
    unfold lookupJob
    simp [List.find?]
  have hrun :
      (startJob true reg j outcome).reg = j :: reg
      ∧ (startJob true reg j outcome).trace.take 2
          = [StartAction.storeJob, StartAction.createCgroup] := by
    unfold startJob
    rw [hfresh]
    cases outcome <;> simp
  refine ⟨hrun.1 ▸ hhead, ?_, hrun.2⟩
  unfold loadJob
  rw [hrun.1, hhead]

/-- Witness for C10: a concrete failing run (cgroup creation error) on
an empty registry still leaves the job fetchable. -/
theorem startJob_registers_before_cgroup_witness :
    (true = true ∧ lookupJob ([] : Registry) aliceRunningJob.id = none)
    ∧ (lookupJob (startJob true [] aliceRunningJob .cgroupCreateErr).reg
          aliceRunningJob.id = some aliceRunningJob
      ∧ loadJob (startJob true [] aliceRunningJob .cgroupCreateErr).reg
          aliceRunningJob.id = Except.ok aliceRunningJob
      ∧ (startJob true [] aliceRunningJob .cgroupCreateErr).trace.take 2
          = [StartAction.storeJob, StartAction.createCgroup]) :=
  ⟨⟨rfl, rfl⟩,
    startJob_registers_before_cgroup true [] aliceRunningJob .cgroupCreateErr rfl rfl⟩

/-- Bytes of the per-job output log. -/
abbrev Byte := Nat

/-- One observation a follower's `fd.Read` makes: the log file's
current contents (the file is append-only, single writer) and the job
status `j.Status()` the follower would see at that instant.  A run of
Job.StreamOutput is driven by a finite sequence of such observations;
consecutive observations may repeat (the watcher can wake a follower
with no new bytes) and the sequence ending models cancellation of the
stream context. -/
structure Obs where
  log : List Byte
  status : JobStatus
deriving DecidableEq, Repr

/-- The bytes one `fd.Read(b)` returns with the descriptor at offset
`pos` into a file holding `log`: up to `chunk` bytes from `pos`. -/
def readChunk (log : List Byte) (pos chunk : Nat) : List Byte :=
  (log.drop pos).take chunk

/-- Result of a StreamOutput run: the chunks pushed to the stream
channel in order, the final file offset, and whether the run returned
nil (EOF with the job no longer running); `completed = false` models a
run cut short by context cancellation (observation budget exhausted). -/
structure StreamRun where
  chunks : List (List Byte)
  pos : Nat
  completed : Bool
deriving DecidableEq, Repr

/-- job.go Job.StreamOutput's loop, one observation per `fd.Read`:
if any bytes were read, send them on the stream and loop; on EOF with
the job Running, wait for the output watcher and re-read; on EOF with
the job no longer running, return nil.  The descriptor offset `pos`
advances by exactly the bytes read. -/
def streamLoop (chunk : Nat) : List Obs → Nat → StreamRun
  | [], pos => ⟨[], pos, false⟩
  | o :: rest, pos =>
    let c := readChunk o.log pos chunk
    if 0 < c.length then
      let r := streamLoop chunk rest (pos + c.length)
      ⟨c :: r.chunks, r.pos, r.completed⟩
    else if o.status = .running then
      streamLoop chunk rest pos
    else
      ⟨[], pos, true⟩

theorem streamLoop_spec (chunk : Nat) (hchunk : 0 < chunk) (final : List Byte) :
    ∀ (obs : List Obs) (pos : Nat),
      (∀ o ∈ obs, final.take o.log.length = o.log) →
      pos ≤ final.length →
      ((streamLoop chunk obs pos).chunks.flatten
          = (final.drop pos).take ((streamLoop chunk obs pos).pos - pos))
      ∧ pos ≤ (streamLoop chunk obs pos).pos
      ∧ (streamLoop chunk obs pos).pos ≤ final.length
      ∧ ((streamLoop chunk obs pos).completed = true →
          ∃ x, x ∈ obs ∧ x.status ≠ .running
            ∧ x.log.length ≤ (streamLoop chunk obs pos).pos) := by
  intro obs
  induction obs with
  | nil =>
    intro pos _ hpos
    simp [streamLoop]
    exact hpos
  | cons o rest ih =>
    intro pos hmono hpos
    have hmono_o : final.take o.log.length = o.log := hmono o (by simp)
    have hmono_rest : ∀ x ∈ rest, final.take x.log.length = x.log :=
      fun x hx => hmono x (by simp [hx])
    have hsplit : o.log ++ final.drop o.log.length = final := by
      conv_rhs => rw [← List.take_append_drop o.log.length final]
      rw [hmono_o]
    have holen : o.log.length ≤ final.length := by
      conv_rhs => rw [← hsplit]
      simp
    set c := readChunk o.log pos chunk with hc
    have hclen : c.length = min chunk (o.log.length - pos) := by
      rw [hc]
      unfold readChunk
      simp
    by_cases hpos_c : 0 < c.length
    · have hble : pos + c.length ≤ o.log.length := by omega
      have hble' : pos + c.length ≤ final.length := le_trans hble holen
      have hposlog : pos ≤ o.log.length := by omega
      have hchunk_final : (final.drop pos).take c.length = c := by
        have hdrop : final.drop pos = o.log.drop pos ++ final.drop o.log.length := by
          conv_lhs => rw [← hsplit]
          rw [List.drop_append_eq_append_drop]
          have hz0 : pos - o.log.length = 0 := by omega
          rw [hz0]
          simp
        rw [hdrop, List.take_append_eq_append_take]
        have hlen_dp : (List.drop pos o.log).length = o.log.length - pos := by simp
        have hle : c.length ≤ (List.drop pos o.log).length := by omega
        have hz : c.length - (List.drop pos o.log).length = 0 := by omega
        rw [hz]
        simp only [List.take_zero, List.append_nil]
        rw [hc]
        unfold readChunk
        rw [List.length_take]
        rcases le_total chunk (List.drop pos o.log).length with hle2 | hle2
        · rw [min_eq_left hle2]
        · rw [min_eq_right hle2, List.take_length,
            List.take_of_length_le hle2]
      have ihr := ih (pos + c.length) hmono_rest hble'
      have hstep : streamLoop chunk (o :: rest) pos
          = ⟨c :: (streamLoop chunk rest (pos + c.length)).chunks,
             (streamLoop chunk rest (pos + c.length)).pos,
             (streamLoop chunk rest (pos + c.length)).completed⟩ := by
        simp only [streamLoop]
        rw [← hc]
        simp [hpos_c]
      rw [hstep]
      set r := streamLoop chunk rest (pos + c.length) with hr
      obtain ⟨ih1, ih2, ih3, ih4⟩ := ihr
      refine ⟨?_, ?_, ih3, ?_⟩
      · show (c :: r.chunks).flatten = (final.drop pos).take (r.pos - pos)
        rw [List.flatten_cons, ih1]
        have harith : r.pos - pos = c.length + (r.pos - (pos + c.length)) := by omega
        rw [harith, List.take_add, hchunk_final, List.drop_drop]
      · show pos ≤ r.pos
        omega
      · show r.completed = true →
            ∃ x, x ∈ o :: rest ∧ x.status ≠ .running ∧ x.log.length ≤ r.pos
        intro hcomp
        obtain ⟨x, hx, hx1, hx2⟩ := ih4 hcomp
        exact ⟨x, List.mem_cons_of_mem _ hx, hx1, hx2⟩
    · have hczero : c.length = 0 := by omega
      have heof : o.log.length ≤ pos := by omega
      by_cases hrun : o.status = .running
      · have hstep : streamLoop chunk (o :: rest) pos = streamLoop chunk rest pos := by
          simp only [streamLoop]
          rw [← hc]
          simp [hczero, hrun]
        rw [hstep]
        obtain ⟨ih1, ih2, ih3, ih4⟩ := ih pos hmono_rest hpos
        refine ⟨ih1, ih2, ih3, ?_⟩
        intro hcomp
        obtain ⟨x, hx, hx1, hx2⟩ := ih4 hcomp
        exact ⟨x, List.mem_cons_of_mem _ hx, hx1, hx2⟩
      · have hstep : streamLoop chunk (o :: rest) pos = ⟨[], pos, true⟩ := by
          simp only [streamLoop]
          rw [← hc]
          simp [hczero, hrun]
        rw [hstep]
        exact ⟨by simp, Nat.le_refl pos, hpos,
          fun _ => ⟨o, List.mem_cons_self _ _, hrun, heof⟩⟩

/-- C5, counterexample: StreamOutput's end-of-run test is
`Status() != Running` at an EOF read, and nothing ties that instant to
the final log contents.  In the run below the follower delivers the
log's first byte, then its next read hits end-of-file while the job is
already terminal (Stopped) although the final log holds a second byte —
the concrete shape of a read racing the terminal transition, or of the
target process (killed only through the re-exec child's handle) still
appending after the job is marked Stopped.  Every observation is an
initial segment of the final log, the run completes in the code's
sense, yet the delivered bytes are a proper prefix of the final log,
so "equals the whole log when the follower runs until the job is
terminal and end-of-log is reached" fails as stated.  (A follower
attaching while the job is still Pending completes the same way having
delivered nothing at all.) -/
theorem streamOutput_completion_counterexample :
    (∀ o ∈ [Obs.mk [1] .stopped, Obs.mk [1] .stopped],
        ([1, 2] : List Byte).take o.log.length = o.log)
    ∧ terminalStatus (Obs.mk [1] JobStatus.stopped).status
    ∧ (streamLoop 2 [Obs.mk [1] .stopped, Obs.mk [1] .stopped] 0).completed = true
    ∧ (streamLoop 2 [Obs.mk [1] .stopped, Obs.mk [1] .stopped] 0).chunks.flatten = [1]
    ∧ ([1] : List Byte) ≠ ([1, 2] : List Byte)
    ∧ (streamLoop 1 [Obs.mk [] .pending] 0).completed = true
    ∧ (streamLoop 1 [Obs.mk [] .pending] 0).chunks.flatten = [] := by
  refine ⟨by decide, Or.inl rfl, ?_, ?_, by decide, ?_, ?_⟩ <;> decide

/-- C5, amended: for any chunk size > 0 and any follower run — any
finite sequence of read observations in which each observed log
contents is an initial segment of the job's final log (the log is
append-only) — the concatenation of the chunks delivered to the
follower's sink is exactly the prefix of the final log of length equal
to the final read offset, starting at byte 0 (hence no duplicated,
reordered or missing bytes); a run can only complete at an end-of-log
read observing a non-Running job, and by then every byte that read
observed has been delivered; and the delivery equals the whole final
log whenever each non-Running observation in the run already sees the
final contents — but not unconditionally, since the non-Running check
also fires while the job is still Pending or before a late append
becomes visible. -/
theorem streamOutput_chunks_prefix_amended (obs : List Obs) (final : List Byte)
    (chunk : Nat) (hchunk : 0 < chunk)
    (hmono : ∀ o ∈ obs, final.take o.log.length = o.log) :
    (streamLoop chunk obs 0).chunks.flatten = final.take (streamLoop chunk obs 0).pos
    ∧ (streamLoop chunk obs 0).pos ≤ final.length
    ∧ ((streamLoop chunk obs 0).completed = true →
        ∃ x, x ∈ obs ∧ x.status ≠ .running
          ∧ x.log.length ≤ (streamLoop chunk obs 0).pos)
    ∧ ((∀ o ∈ obs, o.status ≠ .running → o.log = final) →
        (streamLoop chunk obs 0).completed = true →
        (streamLoop chunk obs 0).chunks.flatten = final) := by
  obtain ⟨h1, _, h3, h4⟩ :=
    streamLoop_spec chunk hchunk final obs 0 hmono (Nat.zero_le _)
  rw [List.drop_zero, Nat.sub_zero] at h1
  refine ⟨h1, h3, h4, ?_⟩
  intro hterm hcomp
  obtain ⟨x, hx, hx1, hx2⟩ := h4 hcomp
  have hxfin : x.log = final := hterm x hx hx1
  have hlen : (streamLoop chunk obs 0).pos = final.length := by
    rw [hxfin] at hx2
    omega
  rw [h1, hlen, List.take_length]

/-- Witness for C5's amended theorem: a follower that attaches while
the log holds two of three bytes, drains them in one 2-byte chunk,
reads the final byte after the job exits, and completes; here every
terminal observation saw the final log, so the whole log was
delivered. -/
theorem streamOutput_chunks_prefix_amended_witness :
    (0 < 2
      ∧ (∀ o ∈ [Obs.mk [1, 2] .running, Obs.mk [1, 2, 3] .exited,
            Obs.mk [1, 2, 3] .exited],
          ([1, 2, 3] : List Byte).take o.log.length = o.log))
    ∧ ((streamLoop 2 [Obs.mk [1, 2] .running, Obs.mk [1, 2, 3] .exited,
          Obs.mk [1, 2, 3] .exited] 0).chunks.flatten
        = ([1, 2, 3] : List Byte).take
            (streamLoop 2 [Obs.mk [1, 2] .running, Obs.mk [1, 2, 3] .exited,
              Obs.mk [1, 2, 3] .exited] 0).pos
      ∧ (streamLoop 2 [Obs.mk [1, 2] .running, Obs.mk [1, 2, 3] .exited,
          Obs.mk [1, 2, 3] .exited] 0).pos ≤ ([1, 2, 3] : List Byte).length
      ∧ ((streamLoop 2 [Obs.mk [1, 2] .running, Obs.mk [1, 2, 3] .exited,
            Obs.mk [1, 2, 3] .exited] 0).completed = true →
          ∃ x, x ∈ [Obs.mk [1, 2] .running, Obs.mk [1, 2, 3] .exited,
              Obs.mk [1, 2, 3] .exited]
            ∧ x.status ≠ .running
            ∧ x.log.length ≤ (streamLoop 2 [Obs.mk [1, 2] .running,
                Obs.mk [1, 2, 3] .exited, Obs.mk [1, 2, 3] .exited] 0).pos)
      ∧ ((∀ o ∈ [Obs.mk [1, 2] .running, Obs.mk [1, 2, 3] .exited,
            Obs.mk [1, 2, 3] .exited],
          o.status ≠ .running → o.log = [1, 2, 3]) →
          (streamLoop 2 [Obs.mk [1, 2] .running, Obs.mk [1, 2, 3] .exited,
            Obs.mk [1, 2, 3] .exited] 0).completed = true →
          (streamLoop 2 [Obs.mk [1, 2] .running, Obs.mk [1, 2, 3] .exited,
            Obs.mk [1, 2, 3] .exited] 0).chunks.flatten = [1, 2, 3])) :=
  ⟨⟨by decide, by decide⟩,
    streamOutput_chunks_prefix_amended
      [Obs.mk [1, 2] .running, Obs.mk [1, 2, 3] .exited, Obs.mk [1, 2, 3] .exited]
      [1, 2, 3] 2 (by decide) (by decide)⟩

end Teleport
